import Mathlib

/-!
Verification development for the clerk-docket minutes typesetting engine.

The engine lives in two source files:
  * `src/lib/minutes-pdf.ts` — the Pagination Renderer (`generateMinutesPDF`),
  * the meetings page component — the Screen Renderer (`MinutesDocument`,
    `ReviewText`, `parseReviewTimestamp`, `stripTimestamp`, `isAllCaps`,
    `isFullWidthLine`).

Lines of text are modelled as `List Char`.  JavaScript string primitives used
by the engine (`trim`, `split("\n")`, `startsWith`, `includes`, the fixed
regular expressions, `split(/\s{4,}/)`) are modelled as executable functions
on `List Char`.  The fixed regular expressions of the source are small enough
that their leftmost-match/greedy semantics can be implemented directly.

The floating-point comparison `upper / letters.length > 0.7` of `isAllCaps`
is modelled as the exact rational comparison `10 * upper > 7 * letters`;
no claim in this development depends on inputs near the 70% boundary, so the
double-rounding of the literal `0.7` is immaterial.

PDF font metrics (`doc.heightOfString`) are external to the repository, so the
pagination model is parameterised by an abstract height function `HFun`
assigning a rendered height to each (text, wrap-width) pair; the page
geometry constants (Letter page, 72pt margins, bottom limit 706 = 792-72-14,
line height 11, section indent 36) are taken verbatim from `minutes-pdf.ts`.
-/

namespace ClerkDocket

abbrev Line := List Char

/-- Character content of a string literal, used to transcribe the literal
strings of the source. -/
def lit (s : String) : Line := s.data

/-- Whitespace as used by the source's `trim()` and the `\s` regex class
(ASCII part; the engine's inputs and literals are ASCII). -/
def isWsChar (c : Char) : Bool :=
  c == ' ' || c == '\t' || c == '\n' || c == '\r' || c == Char.ofNat 11 || c == Char.ofNat 12

/-- Image of one character under `text.replace(/\t/g, "    ")`. -/
def normTabC (c : Char) : List Char :=
  if c = '\t' then [' ', ' ', ' ', ' '] else [c]

/-- `text.replace(/\t/g, "    ")` — tab normalization performed by the
Pagination Renderer before splitting into lines. -/
def normTab : Line → Line
  | [] => []
  | c :: cs => normTabC c ++ normTab cs

/-- `text.split("\n")`. -/
def splitNl : Line → List Line
  | [] => [[]]
  | c :: cs =>
    if c = '\n' then [] :: splitNl cs
    else
      match splitNl cs with
      | [] => [[c]]
      | l :: ls => (c :: l) :: ls

/-- Left trim. -/
def trimL (l : Line) : Line := l.dropWhile isWsChar

/-- JavaScript `String.prototype.trim`. -/
def trim (l : Line) : Line := ((trimL l).reverse.dropWhile isWsChar).reverse

/-- `s.startsWith pat` — `startsW pat s` tests whether `pat` is a prefix of `s`. -/
def startsW : Line → Line → Bool
  | [], _ => true
  | _ :: _, [] => false
  | p :: ps, c :: cs => p == c && startsW ps cs

/-- `s.includes pat` — substring test. -/
def hasSub (pat : Line) : Line → Bool
  | [] => pat.isEmpty
  | c :: cs => startsW pat (c :: cs) || hasSub pat cs

/-- Index of the first element satisfying `p` (the `for … break` search). -/
def firstIdxAux (p : Line → Bool) : List Line → Option Nat
  | [] => none
  | l :: ls => if p l then some 0 else (firstIdxAux p ls).map (· + 1)

/-- After the maximal digit run, a numbered header needs a literal dot and at
least one whitespace character. -/
def numHdrDot : Line → Bool
  | x :: w :: _ => x == '.' && isWsChar w
  | _ => false

/-- Test for the regex `/^\d+\.\s+/` (numbered section header). -/
def numHdr (s : Line) : Bool :=
  !(s.takeWhile Char.isDigit).isEmpty && numHdrDot (s.dropWhile Char.isDigit)

/-- The header title after the matched `^\d+\.\s+` prefix
(`trimmed.slice(numText.length)`). -/
def numHdrRest (s : Line) : Line :=
  ((s.dropWhile Char.isDigit).drop 1).dropWhile isWsChar

/-- Test for the regex `/^\d+\.\s+DISCUSSION/`. -/
def numHdrDisc (s : Line) : Bool :=
  numHdr s && startsW (lit "DISCUSSION") (numHdrRest s)

/-- Test for the regex `/^a\.\s/`. -/
def hdrA : Line → Bool
  | a :: d :: w :: _ => a == 'a' && d == '.' && isWsChar w
  | _ => false

/-- One step of `t.split(/\s{4,}/)` (signature column split): split at every
maximal whitespace run of length at least four. -/
def splitColsGo : Nat → Line → List Line
  | _, [] => [[]]
  | 0, l => [l]
  | fuel + 1, c :: cs =>
    if isWsChar c && 3 ≤ (cs.takeWhile isWsChar).length then
      [] :: splitColsGo fuel (cs.dropWhile isWsChar)
    else
      match splitColsGo fuel cs with
      | [] => [[c]]
      | s :: ss => (c :: s) :: ss

/-- `t.split(/\s{4,}/)`. -/
def splitCols (l : Line) : List Line := splitColsGo l.length l

/-- Numeric value of an ASCII digit. -/
def digitVal (c : Char) : Nat := c.toNat - 48

/-- `parseInt` on a list of decimal digits. -/
def digitsVal (l : Line) : Nat := l.foldl (fun n c => 10 * n + digitVal c) 0

/-- Decimal rendering of a value below 100 (template `${h}` for a parsed
hour), without leading zeros. -/
def natToDigits (n : Nat) : Line :=
  if n < 10 then [Char.ofNat (48 + n)]
  else [Char.ofNat (48 + n / 10), Char.ofNat (48 + n % 10)]

/-- Greedy `\d{1,2}` followed by a literal `:`; returns the digit group and
the remainder after the colon.  Mirrors the regex engine's preference for the
two-digit alternative with backtracking to one digit. -/
def grab12 : Line → Option (Line × Line)
  | a :: b :: c :: rest =>
    if a.isDigit && b.isDigit && c == ':' then some ([a, b], rest)
    else if a.isDigit && b == ':' then some ([a], c :: rest)
    else none
  | [a, b] => if a.isDigit && b == ':' then some ([a], []) else none
  | _ => none

/-- `\d{2}`: exactly two digits, returning them and the remainder. -/
def grab2 : Line → Option (Char × Char × Line)
  | a :: b :: rest => if a.isDigit && b.isDigit then some (a, b, rest) else none
  | _ => none

/-- The optional group `(?::(\d{2}))?`: succeeds when a colon and two digits
follow immediately. -/
def optSS : Line → Option (Char × Char)
  | c :: a :: b :: _ => if c == ':' && a.isDigit && b.isDigit then some (a, b) else none
  | _ => none

/-- Attempt to match `@(\d{1,2}):(\d{2})(?::(\d{2}))?` at the start of the
input; on success returns the three capture groups and the remainder after
the whole match. -/
def tryTimeAt : Line → Option ((Line × Line × Option Line) × Line)
  | [] => none
  | c0 :: r =>
    if c0 == '@' then
      match grab12 r with
      | none => none
      | some (g1, r1) =>
        match grab2 r1 with
        | none => none
        | some (c, d, r2) =>
          match optSS r2 with
          | some (e, f) => some ((g1, [c, d], some [e, f]), r2.drop 3)
          | none => some ((g1, [c, d], none), r2)
    else none

/-- Leftmost match of the timestamp regex (`marker.match(...)`): capture
groups of the first position where the pattern matches. -/
def findTime : Line → Option (Line × Line × Option Line)
  | [] => none
  | c :: cs =>
    match tryTimeAt (c :: cs) with
    | some (g, _) => some g
    | none => findTime cs

/-- Source `parseReviewTimestamp` — returns `(display, seconds)`:
H:MM:SS markers give `h*3600 + m*60 + s` with the hour re-rendered from its
parsed value; MM:SS markers give `m*60 + s` with the groups as written. -/
def parseReviewTimestamp (marker : Line) : Option (Line × Nat) :=
  match findTime marker with
  | none => none
  | some (g1, g2, some g3) =>
    some (natToDigits (digitsVal g1) ++ ':' :: g2 ++ ':' :: g3,
      digitsVal g1 * 3600 + digitsVal g2 * 60 + digitsVal g3)
  | some (g1, g2, none) =>
    some (g1 ++ ':' :: g2, digitsVal g1 * 60 + digitsVal g2)

/-- Attempt to match `\s*@\d{1,2}:\d{2}(?::\d{2})?\s*` at the start of the
input; on success returns the remainder after the match (the leading `\s*`
must reach the `@`, so backtracking inside `\s*` cannot succeed). -/
def tryStripAt (s : Line) : Option Line :=
  match tryTimeAt (s.dropWhile isWsChar) with
  | some (_, rest) => some (rest.dropWhile isWsChar)
  | none => none

/-- `marker.replace(/\s*@\d{1,2}:\d{2}(?::\d{2})?\s*/, " ")` — leftmost match
replaced by a single space; `none` when there is no match. -/
def stripScan : Line → Option Line
  | [] => none
  | c :: cs =>
    match tryStripAt (c :: cs) with
    | some rest => some (' ' :: rest)
    | none => (stripScan cs).map fun r => c :: r

/-- `x.replace(/\s+\]/, "]")` — leftmost whitespace run directly before a
closing bracket collapsed; `none` when there is no match. -/
def brkScan : Line → Option Line
  | [] => none
  | c :: cs =>
    if isWsChar c then
      match (c :: cs).dropWhile isWsChar with
      | ']' :: rest => some (']' :: rest)
      | _ => (brkScan cs).map fun r => c :: r
    else (brkScan cs).map fun r => c :: r

/-- Source `stripTimestamp`. -/
def stripTimestamp (marker : Line) : Line :=
  let m1 := (stripScan marker).getD marker
  (brkScan m1).getD m1

/-- Attempt to match `\[REVIEW:[^\]]*\]` at the start of the input, returning
the matched marker and the remainder. -/
def tryMarkerAt (s : Line) : Option (Line × Line) :=
  if startsW (lit "[REVIEW:") s then
    match (s.drop 8).dropWhile (fun c => !(c == ']')) with
    | ']' :: rest =>
      some (lit "[REVIEW:" ++ (s.drop 8).takeWhile (fun c => !(c == ']')) ++ [']'], rest)
    | _ => none
  else none

/-- Global, non-overlapping matches of `\[REVIEW:[^\]]*\]` in a line (the
Screen Renderer's `text.split(/(\[REVIEW:[^\]]*\])/g)` marker extraction and
`countReviewMarkers`).  Fuelled by the input length; each match consumes at
least one character so the fuel never runs out. -/
def srchMarkersGo : Nat → Line → List Line
  | _, [] => []
  | 0, _ => []
  | fuel + 1, c :: cs =>
    match tryMarkerAt (c :: cs) with
    | some (m, rest) => m :: srchMarkersGo fuel rest
    | none => srchMarkersGo fuel cs

/-- Review markers appearing in a line. -/
def srchMarkers (l : Line) : List Line := srchMarkersGo l.length l

/-- Semantic role of a classified line. -/
inductive Role
  | title
  | sectionHeader
  | sectionBody
  | fullWidth
  | blank
deriving DecidableEq, Repr

/-- The (role, bold, indentLevel) attributes both renderers assign to a line. -/
structure Triple where
  role : Role
  bold : Bool
  indent : Nat
deriving DecidableEq, Repr

/-- Mutable fold state of the body classification (`insideSection`,
`inDiscussion` in both sources). -/
structure SegState where
  insideSection : Bool
  inDiscussion : Bool
deriving DecidableEq, Repr

/-- The three title-block boundary tests
(`t.startsWith("A Worksession") || t.startsWith("A Regular") || t.startsWith("A Combined")`). -/
def isTitleBoundary (line : Line) : Bool :=
  let t := trim line
  startsW (lit "A Worksession") t || startsW (lit "A Regular") t || startsW (lit "A Combined") t

/-- `lines[i].includes("___")`. -/
def hasUnderscores (line : Line) : Bool := hasSub (lit "___") line

/-- Title-block boundary scan (`titleEnd` stays 0 when no boundary line
exists). -/
def titleEndOf (ls : List Line) : Nat := (firstIdxAux isTitleBoundary ls).getD 0

/-- Signature-block boundary scan from the bottom (`sigStart` stays
`lines.length` when no underscore line exists). -/
def sigStartOf (ls : List Line) : Nat :=
  match firstIdxAux hasUnderscores ls.reverse with
  | some j => ls.length - 1 - j
  | none => ls.length

/-- The in-discussion flag update performed for every non-blank body line
(both sources):
`if (/^\d+\.\s+DISCUSSION/.test(trimmed)) inDiscussion = true;
 else if (/^\d+\.\s+/.test(trimmed) && !trimmed.includes("DISCUSSION")) inDiscussion = false;` -/
def discStep (st : SegState) (trimmed : Line) : Bool :=
  if numHdrDisc trimmed then true
  else if numHdr trimmed && !hasSub (lit "DISCUSSION") trimmed then false
  else st.inDiscussion

/-- Shared signature parsing loop (identical in both sources): skip blank and
underscore lines; the first up-to-two surviving lines fill the name row, the
rest fill the title row; each line splits on `\s{4,}` into up to two columns. -/
def sigParseGo : List Line × List Line → List Line → List Line × List Line
  | acc, [] => acc
  | (ns, ts), line :: rest =>
    let t := trim line
    if hasSub (lit "___") t || t.isEmpty then sigParseGo (ns, ts) rest
    else
      let parts := splitCols t
      if ns.length < 2 then
        match parts with
        | p0 :: p1 :: _ => sigParseGo (ns ++ [trim p0, trim p1], ts) rest
        | _ => sigParseGo (ns ++ [t], ts) rest
      else
        match parts with
        | p0 :: p1 :: _ => sigParseGo (ns, ts ++ [trim p0, trim p1]) rest
        | _ => sigParseGo (ns, ts ++ [t]) rest

/-- Signature name/title rows parsed from the candidate signature lines. -/
def sigParse (sigLines : List Line) : List Line × List Line :=
  sigParseGo ([], []) sigLines

/-- JavaScript `x || d` on an optional string: `undefined` and the empty
string both fall back to the default. -/
def jsOr (x : Option Line) (d : Line) : Line :=
  match x with
  | none => d
  | some l => if l.isEmpty then d else l

/-- Whether a line contains a tab character. -/
def hasTabL (l : Line) : Bool := l.any fun c => c == '\t'

/-- Whether a line contains any whitespace character. -/
def hasWsL (l : Line) : Bool := l.any isWsChar

/-- Whether a line contains two consecutive spaces. -/
def hasDblSpace : Line → Bool
  | c1 :: c2 :: rest => (c1 == ' ' && c2 == ' ') || hasDblSpace (c2 :: rest)
  | _ => false

/-- Whether a line ends with a space. -/
def endsSpace : Line → Bool
  | [] => false
  | [c] => c == ' '
  | _ :: c :: rest => endsSpace (c :: rest)

/-- A literal is stable under tab normalization of the searched string when it
has no tab, no double space and no trailing space. -/
def litOk (l : Line) : Bool := !hasTabL l && !hasDblSpace l && !endsSpace l

end ClerkDocket

namespace ClerkDocket.MinutesPDF

/-- `isAllCaps` of `minutes-pdf.ts` (exact rational form of
`upper / letters.length > 0.7`). -/
def isAllCaps (text : Line) : Bool :=
  let letters := text.filter Char.isAlpha
  !letters.isEmpty && decide (7 * letters.length < 10 * (letters.filter Char.isUpper).length)

/-- `isFullWidthLine` of `minutes-pdf.ts`. -/
def isFullWidthLine (text : Line) : Bool :=
  startsW (lit "A Worksession") text ||
  startsW (lit "A Regular") text ||
  startsW (lit "A Combined") text ||
  startsW (lit "Present were") text ||
  startsW (lit "Also present") text ||
  startsW (lit "The Township Clerk advised") text ||
  startsW (lit "This meeting") text ||
  startsW (lit "http") text ||
  startsW (lit "On a motion") text ||
  startsW (lit "Hearing no further") text

/-- `isBoldLine` of `minutes-pdf.ts`. -/
def isBoldLine (text : Line) (inDiscussion : Bool) : Bool :=
  isAllCaps text ||
  (inDiscussion &&
    (startsW (lit "Councilmember") text ||
     startsW (lit "Council President") text ||
     startsW (lit "Council Vice President") text ||
     hdrA text))

/-- One iteration of the body loop of `generateMinutesPDF`: the discussion
tracking, then the section-header / indented / full-width branch, returning
the updated state and the (role, bold, indent) the branch renders with. -/
def classifyLine (st : SegState) (line : Line) : SegState × Triple :=
  let trimmed := trim line
  if trimmed.isEmpty then (st, ⟨.blank, false, 0⟩)
  else
    let disc := discStep st trimmed
    if numHdr trimmed then
      (⟨true, disc⟩, ⟨.sectionHeader, true, 0⟩)
    else if st.insideSection && !isFullWidthLine trimmed then
      (⟨st.insideSection, disc⟩, ⟨.sectionBody, isBoldLine trimmed disc, 1⟩)
    else
      let inside :=
        if startsW (lit "On a motion") trimmed || startsW (lit "Hearing no further") trimmed
        then false else st.insideSection
      (⟨inside, disc⟩, ⟨.fullWidth, false, 0⟩)

/-- The body loop, threading the state across lines. -/
def classifyBody : SegState → List Line → List Triple
  | _, [] => []
  | st, l :: ls =>
    let r := classifyLine st l
    r.2 :: classifyBody r.1 ls

/-- Running states of the body loop: the state before each line and the
final state. -/
def statesOf : SegState → List Line → List SegState
  | st, [] => [st]
  | st, l :: ls => st :: statesOf (classifyLine st l).1 ls

/-- `minutes.replace(/\t/g, "    ").split("\n")`. -/
def linesOf (text : Line) : List Line := splitNl (normTab text)

/-- `lines.slice(0, titleEnd).filter(l => l.trim().length > 0)`. -/
def titleLines (text : Line) : List Line :=
  ((linesOf text).take (titleEndOf (linesOf text))).filter fun l => !(trim l).isEmpty

/-- `lines.slice(titleEnd, sigStart)`. -/
def bodyLines (text : Line) : List Line :=
  let ls := linesOf text
  (ls.drop (titleEndOf ls)).take (sigStartOf ls - titleEndOf ls)

/-- `lines.slice(sigStart)`. -/
def sigLines (text : Line) : List Line :=
  (linesOf text).drop (sigStartOf (linesOf text))

/-- Title lines render centered and bold with no indent. -/
def titleTriples (text : Line) : List Triple :=
  (titleLines text).map fun _ => ⟨.title, true, 0⟩

/-- Body triples under the initial state. -/
def bodyTriples (text : Line) : List Triple :=
  classifyBody ⟨false, false⟩ (bodyLines text)

/-- The full sequence of (role, bold, indent) triples the Pagination
Renderer's traversal assigns to a document. -/
def docTriples (text : Line) : List Triple :=
  titleTriples text ++ bodyTriples text

/-- The four signature texts the PDF draws, with the source's fallback
defaults (`nameLinesParsed[0] || "Sam Joshi"`, …). -/
def renderedSigs (text : Line) : Line × Line × Line × Line :=
  let p := sigParse (sigLines text)
  (jsOr (p.1.get? 0) (lit "Sam Joshi"),
   jsOr (p.1.get? 1) (lit "Patricia Benedetto, RMC"),
   jsOr (p.2.get? 0) (lit "Council President"),
   jsOr (p.2.get? 1) (lit "Municipal Clerk"))

/-! Pagination model.  Geometry constants from `minutes-pdf.ts`:
`bottomLimit = 792 - 72 - 14 = 706`, `marginTop = 72`,
`LINE_HEIGHT = 10 + 1 = 11`, `contentWidth = 612 - 72 - 72 = 468`,
`SECTION_INDENT = 36`, signature column width `468/2 - 40 = 194`. -/

def bottomLimit : Nat := 706
def marginTop : Nat := 72
def lineHeight : Nat := 11
def contentWidth : Nat := 468
def sectionIndent : Nat := 36
def sigColWidth : Nat := 194

/-- Height function abstracting `doc.heightOfString(text, {width, lineGap})`:
the wrapped height of a text at a wrap width. -/
abbrev HFun := Line → Nat → Nat

/-- How a block was placed: `measured` blocks go through `writeText` which
measures their height first; `hdrNum` is a section number written with
`lineBreak: false`; `hdrTitle` is a section-header title placed after a fixed
`ensureSpace(LINE_HEIGHT * 2)`; `sigText` is a signature row written without
any `ensureSpace`. -/
inductive BKind
  | measured
  | hdrNum
  | hdrTitle
  | sigText
deriving DecidableEq, Repr

/-- A block placed on a page: the page it starts on, its top y coordinate,
its rendered height and how it was placed. -/
structure Placed where
  page : Nat
  yTop : Nat
  height : Nat
  kind : BKind
deriving DecidableEq, Repr

/-- Layout cursor: vertical position, current page, and placed blocks. -/
structure LayoutSt where
  y : Nat
  page : Nat
  out : List Placed
deriving DecidableEq, Repr

/-- A placed block does not cross the bottom content limit provided it was
placed through the measuring `writeText` path and its wrapped height fits a
fresh page's content area (706 - 72 = 634), or it is a one-line section
number (protected by the fixed `ensureSpace(2 * LINE_HEIGHT)`).  Header
title blocks and signature rows carry no such guarantee. -/
def PlacedOk (b : Placed) : Prop :=
  (b.kind = BKind.measured → b.height ≤ 634 → b.yTop + b.height ≤ bottomLimit) ∧
  (b.kind = BKind.hdrNum → b.yTop + b.height ≤ bottomLimit)

/-- `ensureSpace(needed)`: start a new page when the block would cross the
bottom content limit. -/
def ensureSpace (needed : Nat) (st : LayoutSt) : LayoutSt :=
  if bottomLimit < st.y + needed then ⟨marginTop, st.page + 1, st.out⟩ else st

/-- `writeText`: measure, ensure space, place, advance the cursor. -/
def writeTx (k : BKind) (h : Nat) (st : LayoutSt) : LayoutSt :=
  let s := ensureSpace h st
  ⟨s.y + h, s.page, s.out ++ [⟨s.page, s.y, h, k⟩]⟩

/-- `blankLine()`. -/
def blankLn (st : LayoutSt) : LayoutSt := ⟨st.y + lineHeight, st.page, st.out⟩

/-- The title-block loop (`writeText(line.trim(), …, {align: center, bold})`). -/
def titleRender (H : HFun) : LayoutSt → List Line → LayoutSt
  | st, [] => st
  | st, l :: ls => titleRender H (writeTx .measured (H (trim l) contentWidth) st) ls

/-- Rendering of one section-header line: `ensureSpace(LINE_HEIGHT * 2)`,
the numeric prefix written as one unwrapped line (`lineBreak: false`), then —
when the header title is non-empty — the wrapped title placed at the same
baseline, the cursor advancing by the title's wrapped height (by one line
height when there is no title). -/
def hdrStep (H : HFun) (rest : Line) (st : LayoutSt) : LayoutSt :=
  let st1 := ensureSpace (2 * lineHeight) st
  let st2 : LayoutSt := ⟨st1.y, st1.page, st1.out ++ [⟨st1.page, st1.y, lineHeight, .hdrNum⟩]⟩
  if rest.isEmpty then ⟨st2.y + lineHeight, st2.page, st2.out⟩
  else
    ⟨st2.y + H rest (contentWidth - sectionIndent), st2.page,
     st2.out ++ [⟨st2.page, st2.y, H rest (contentWidth - sectionIndent), .hdrTitle⟩]⟩

/-- The body rendering loop of `generateMinutesPDF`.  A section header goes
through `hdrStep`; other non-blank lines go through `writeText` with their
measured height. -/
def bodyRender (H : HFun) : SegState → LayoutSt → List Line → LayoutSt
  | _, st, [] => st
  | sst, st, l :: ls =>
    let trimmed := trim l
    if trimmed.isEmpty then bodyRender H sst (blankLn st) ls
    else
      let disc := discStep sst trimmed
      if numHdr trimmed then
        bodyRender H ⟨true, disc⟩ (hdrStep H (numHdrRest trimmed) st) ls
      else if sst.insideSection && !isFullWidthLine trimmed then
        bodyRender H ⟨sst.insideSection, disc⟩
          (writeTx .measured (H trimmed (contentWidth - sectionIndent)) st) ls
      else
        let inside :=
          if startsW (lit "On a motion") trimmed || startsW (lit "Hearing no further") trimmed
          then false else sst.insideSection
        bodyRender H ⟨inside, disc⟩ (writeTx .measured (H trimmed contentWidth) st) ls

/-- The signature-block layout of `generateMinutesPDF`: `ensureSpace(60)`,
two blank lines, the two rules at the cursor, `y += 4`, the name row (left
and right columns at the same y), `y += LINE_HEIGHT`, the title row.  The
four rows are drawn without any further `ensureSpace`. -/
def sigRender (H : HFun) (sigs : Line × Line × Line × Line) (st : LayoutSt) : LayoutSt :=
  let st5 := ensureSpace 60 st
  let st6 := blankLn (blankLn st5)
  let st7 : LayoutSt := ⟨st6.y + 4, st6.page, st6.out⟩
  let st8 : LayoutSt :=
    ⟨st7.y, st7.page,
     st7.out ++ [⟨st7.page, st7.y, H sigs.1 sigColWidth, .sigText⟩,
       ⟨st7.page, st7.y, H sigs.2.1 sigColWidth, .sigText⟩]⟩
  let st9 : LayoutSt := ⟨st8.y + lineHeight, st8.page, st8.out⟩
  ⟨st9.y, st9.page,
   st9.out ++ [⟨st9.page, st9.y, H sigs.2.2.1 sigColWidth, .sigText⟩,
     ⟨st9.page, st9.y, H sigs.2.2.2 sigColWidth, .sigText⟩]⟩

/-- The whole `generateMinutesPDF` layout pass: two blank gaps around the
title block, the body loop, then the signature block. -/
def renderDoc (H : HFun) (text : Line) : LayoutSt :=
  let st1 := blankLn (blankLn ⟨marginTop, 1, []⟩)
  let st2 := titleRender H st1 (titleLines text)
  let st3 := blankLn (blankLn st2)
  let st4 := bodyRender H ⟨false, false⟩ st3 (bodyLines text)
  sigRender H (renderedSigs text) st4

end ClerkDocket.MinutesPDF

namespace ClerkDocket.MinutesDoc

/-- `isAllCaps` of the meetings page (identical to the PDF exporter's copy). -/
def isAllCaps (text : Line) : Bool :=
  let letters := text.filter Char.isAlpha
  !letters.isEmpty && decide (7 * letters.length < 10 * (letters.filter Char.isUpper).length)

/-- `isFullWidthLine` of the meetings page. -/
def isFullWidthLine (text : Line) : Bool :=
  startsW (lit "A Worksession") text ||
  startsW (lit "A Regular") text ||
  startsW (lit "A Combined") text ||
  startsW (lit "Present were") text ||
  startsW (lit "Also present") text ||
  startsW (lit "The Township Clerk advised") text ||
  startsW (lit "This meeting") text ||
  startsW (lit "http") text ||
  startsW (lit "On a motion") text ||
  startsW (lit "Hearing no further") text

/-- One iteration of the body loop of `MinutesDocument` (the bold test is
written inline in this source). -/
def classifyLine (st : SegState) (line : Line) : SegState × Triple :=
  let trimmed := trim line
  if trimmed.isEmpty then (st, ⟨.blank, false, 0⟩)
  else
    let disc := discStep st trimmed
    if numHdr trimmed then
      (⟨true, disc⟩, ⟨.sectionHeader, true, 0⟩)
    else if st.insideSection && !isFullWidthLine trimmed then
      let bold :=
        isAllCaps trimmed ||
        (disc &&
          (startsW (lit "Councilmember") trimmed ||
           startsW (lit "Council President") trimmed ||
           startsW (lit "Council Vice President") trimmed ||
           hdrA trimmed))
      (⟨st.insideSection, disc⟩, ⟨.sectionBody, bold, 1⟩)
    else
      let inside :=
        if startsW (lit "On a motion") trimmed || startsW (lit "Hearing no further") trimmed
        then false else st.insideSection
      (⟨inside, disc⟩, ⟨.fullWidth, false, 0⟩)

/-- The body loop, threading the state across lines. -/
def classifyBody : SegState → List Line → List Triple
  | _, [] => []
  | st, l :: ls =>
    let r := classifyLine st l
    r.2 :: classifyBody r.1 ls

/-- Running states of the body loop. -/
def statesOf : SegState → List Line → List SegState
  | st, [] => [st]
  | st, l :: ls => st :: statesOf (classifyLine st l).1 ls

/-- `text.split("\n")` — the Screen Renderer does not normalize tabs. -/
def linesOf (text : Line) : List Line := splitNl text

/-- `lines.slice(0, titleEnd).filter(l => l.trim())`. -/
def titleLines (text : Line) : List Line :=
  ((linesOf text).take (titleEndOf (linesOf text))).filter fun l => !(trim l).isEmpty

/-- `lines.slice(titleEnd, sigStart)`. -/
def bodyLines (text : Line) : List Line :=
  let ls := linesOf text
  (ls.drop (titleEndOf ls)).take (sigStartOf ls - titleEndOf ls)

/-- `lines.slice(sigStart)`. -/
def sigLines (text : Line) : List Line :=
  (linesOf text).drop (sigStartOf (linesOf text))

/-- Title lines render centered and bold with no indent. -/
def titleTriples (text : Line) : List Triple :=
  (titleLines text).map fun _ => ⟨.title, true, 0⟩

/-- Body triples under the initial state. -/
def bodyTriples (text : Line) : List Triple :=
  classifyBody ⟨false, false⟩ (bodyLines text)

/-- The full sequence of (role, bold, indent) triples the Screen Renderer's
traversal assigns to a document. -/
def docTriples (text : Line) : List Triple :=
  titleTriples text ++ bodyTriples text

/-- `sigNames` of the Screen Renderer. -/
def sigNames (text : Line) : List Line := (sigParse (sigLines text)).1

/-- `sigTitles` of the Screen Renderer. -/
def sigTitles (text : Line) : List Line := (sigParse (sigLines text)).2

/-- What the Screen Renderer shows in the signature block: nothing at all
when no names were parsed (`sigNames.length > 0` guard), otherwise the four
fields with missing ones as empty strings (`sigNames[0] || ""`, …). -/
def sigRendered (text : Line) : Option (Line × Line × Line × Line) :=
  if (sigNames text).isEmpty then none
  else
    some ((sigNames text).getD 0 [], (sigNames text).getD 1 [],
      (sigTitles text).getD 0 [], (sigTitles text).getD 1 [])

end ClerkDocket.MinutesDoc

namespace ClerkDocket

/-- The concrete eleven-line scenario input of the specification. -/
def scenarioText : Line :=
  lit "TOWNSHIP OF EDISON\nMINUTES\nA Regular Meeting of the Council was held...\n1. CALL TO ORDER\nThe meeting was called to order at 7:00 PM.\n4. DISCUSSION ITEMS\nCouncilmember Smith raised [REVIEW: budget concern @12:05]\nOn a motion, the meeting was adjourned.\n_________________        _________________\nJane Doe                 John Roe\nCouncil President         Township Clerk"

/-- A document that is 51 blank lines followed by one numbered section
header: the body reaches y = 677 just before the header. -/
def overflowText : Line := List.replicate 51 '\n' ++ lit "1. AGENDA"

/-- A height assignment under which every wrapped text block spans three
11-point lines (e.g. any text long enough to wrap three times at its wrap
width). -/
def threeLineH : MinutesPDF.HFun := fun _ _ => 33

/-- A document whose last underscore line (index 0) precedes its title
boundary line (index 2). -/
def invertedText : Line := lit "___\nX\nA Regular"

end ClerkDocket

namespace ClerkDocket

/-! ### Tab-normalization lemmas

The Pagination Renderer normalizes tabs to four spaces before splitting the
text into lines; the Screen Renderer does not.  This section shows that line
splitting, trimming and every classification predicate are unaffected by the
normalization, which is the heart of the renderer-agreement proof. -/

theorem normTab_append (a b : Line) : normTab (a ++ b) = normTab a ++ normTab b := by
  induction a with
  | nil => rfl
  | cons c cs ih => simp [normTab, ih]

theorem normTabC_ne_nil (c : Char) : normTabC c ≠ [] := by
  unfold normTabC; split <;> simp

theorem normTab_eq_nil {l : Line} : normTab l = [] ↔ l = [] := by
  cases l with
  | nil => simp [normTab]
  | cons c cs => simp [normTab, normTabC_ne_nil c]

theorem normTab_tab (cs : Line) : normTab ('\t' :: cs) = ' ' :: ' ' :: ' ' :: ' ' :: normTab cs := by
  simp +decide [normTab, normTabC]

theorem normTab_other {c : Char} (hc : ¬c = '\t') (cs : Line) :
    normTab (c :: cs) = c :: normTab cs := by
  simp [normTab, normTabC, hc]

theorem isEmpty_normTab (l : Line) : (normTab l).isEmpty = l.isEmpty := by
  cases l with
  | nil => rfl
  | cons c cs =>
    by_cases hc : c = '\t'
    · subst hc; rw [normTab_tab]; rfl
    · rw [normTab_other hc]; rfl

theorem splitNl_ne_nil (l : Line) : splitNl l ≠ [] := by
  cases l with
  | nil => simp [splitNl]
  | cons c cs =>
    unfold splitNl
    by_cases hc : c = '\n'
    · simp [hc]
    · simp only [if_neg hc]
      cases splitNl cs <;> simp

theorem splitNl_cons_ne {c : Char} (hc : ¬c = '\n') (l : Line) :
    splitNl (c :: l) = (c :: (splitNl l).headI) :: (splitNl l).tail := by
  rcases h : splitNl l with _ | ⟨hd, tl⟩
  · exact absurd h (splitNl_ne_nil l)
  · conv_lhs => rw [splitNl]
    rw [if_neg hc, h]
    simp

theorem splitNl_normTab (t : Line) : splitNl (normTab t) = (splitNl t).map normTab := by
  induction t with
  | nil => rfl
  | cons c cs ih =>
    by_cases hn : c = '\n'
    · subst hn
      rw [normTab_other (by decide), show splitNl ('\n' :: normTab cs) = [] :: splitNl (normTab cs) from by simp [splitNl],
        show splitNl ('\n' :: cs) = [] :: splitNl cs from by simp [splitNl], ih]
      rfl
    · obtain ⟨hd, tl, h⟩ := List.exists_cons_of_ne_nil (splitNl_ne_nil cs)
      by_cases ht : c = '\t'
      · subst ht
        rw [normTab_tab]
        rw [splitNl_cons_ne (by decide), splitNl_cons_ne (by decide), splitNl_cons_ne (by decide),
          splitNl_cons_ne (by decide), ih, h, splitNl_cons_ne (by decide), h]
        simp [normTab_tab]
      · rw [normTab_other ht]
        rw [splitNl_cons_ne hn, splitNl_cons_ne hn, ih, h]
        simp [normTab_other ht]

theorem dropWhileWs_normTab (l : Line) :
    (normTab l).dropWhile isWsChar = normTab (l.dropWhile isWsChar) := by
  induction l with
  | nil => rfl
  | cons c cs ih =>
    by_cases ht : c = '\t'
    · subst ht
      rw [normTab_tab]
      rw [show ('\t' :: cs).dropWhile isWsChar = cs.dropWhile isWsChar from by
        simp +decide [List.dropWhile_cons]]
      simp +decide [List.dropWhile_cons, ih]
    · rw [normTab_other ht]
      by_cases hw : isWsChar c = true
      · simp [List.dropWhile_cons, hw, ih]
      · simp [List.dropWhile_cons, hw, normTab_other ht]

theorem normTabC_reverse (c : Char) : (normTabC c).reverse = normTabC c := by
  unfold normTabC; split <;> rfl

theorem reverse_normTab (l : Line) : (normTab l).reverse = normTab l.reverse := by
  induction l with
  | nil => rfl
  | cons c cs ih =>
    rw [show normTab (c :: cs) = normTabC c ++ normTab cs from rfl]
    rw [List.reverse_append, ih, normTabC_reverse]
    rw [show (c :: cs).reverse = cs.reverse ++ [c] from by simp]
    rw [normTab_append]
    simp [normTab]

theorem trim_normTab (l : Line) : trim (normTab l) = normTab (trim l) := by
  unfold trim trimL
  rw [dropWhileWs_normTab, reverse_normTab, dropWhileWs_normTab, reverse_normTab]

end ClerkDocket

namespace ClerkDocket

theorem not_ws_tab {a : Char} (h : isWsChar a = false) : (a == '\t') = false := by
  by_cases ha : a = '\t'
  · subst ha; exact absurd h (by decide)
  · exact beq_eq_false_iff_ne.mpr ha

theorem not_ws_sp {a : Char} (h : isWsChar a = false) : (a == ' ') = false := by
  by_cases ha : a = ' '
  · subst ha; exact absurd h (by decide)
  · exact beq_eq_false_iff_ne.mpr ha

theorem hasTabL_cons {a : Char} {l : Line} (h : hasTabL (a :: l) = false) :
    (a == '\t') = false ∧ hasTabL l = false := by
  rw [hasTabL, List.any_cons] at h
  rcases Bool.or_eq_false_iff.mp h with ⟨h1, h2⟩
  exact ⟨h1, h2⟩

theorem hasDblSpace_cons {a : Char} {l : Line} (h : hasDblSpace (a :: l) = false) :
    hasDblSpace l = false := by
  cases l with
  | nil => rfl
  | cons b r =>
    rw [hasDblSpace] at h
    exact (Bool.or_eq_false_iff.mp h).2

theorem endsSpace_cons {a b : Char} {l : Line} (h : endsSpace (a :: b :: l) = false) :
    endsSpace (b :: l) = false := h

theorem startsW_normTab (s : Line) : ∀ L : Line, litOk L = true →
    startsW L (normTab s) = startsW L s := by
  induction s with
  | nil => intro L _; rfl
  | cons c cs ih =>
    intro L hL
    have hparts : hasTabL L = false ∧ hasDblSpace L = false ∧ endsSpace L = false := by
      rw [litOk] at hL
      simp only [Bool.and_eq_true, Bool.not_eq_true'] at hL
      exact ⟨hL.1.1, hL.1.2, hL.2⟩
    obtain ⟨hT, hD, hE⟩ := hparts
    cases L with
    | nil => rfl
    | cons a L' =>
      by_cases ht : c = '\t'
      · subst ht
        have hat : (a == '\t') = false := (hasTabL_cons hT).1
        rw [normTab_tab]
        rw [show startsW (a :: L') ('\t' :: cs) = ((a == '\t') && startsW L' cs) from rfl,
          hat, Bool.false_and]
        by_cases has : a = ' '
        · subst has
          cases L' with
          | nil => exact absurd hE (by simp [endsSpace])
          | cons b L'' =>
            by_cases hbs : b = ' '
            · subst hbs; exact absurd hD (by simp [hasDblSpace])
            · have hb : (b == ' ') = false := beq_eq_false_iff_ne.mpr hbs
              rw [show startsW (' ' :: b :: L'') (' ' :: ' ' :: ' ' :: ' ' :: normTab cs) =
                ((' ' == ' ') && ((b == ' ') && startsW L'' (' ' :: ' ' :: normTab cs))) from rfl]
              rw [hb]
              simp
        · have ha : (a == ' ') = false := beq_eq_false_iff_ne.mpr has
          rw [show startsW (a :: L') (' ' :: ' ' :: ' ' :: ' ' :: normTab cs) =
            ((a == ' ') && startsW L' (' ' :: ' ' :: ' ' :: normTab cs)) from rfl, ha]
          simp
      · have hL' : litOk L' = true := by
          rcases L' with _ | ⟨b, r⟩
          · rfl
          · have h1 := (hasTabL_cons hT).2
            have h2 := hasDblSpace_cons hD
            have h3 := endsSpace_cons hE
            rw [litOk, h1, h2, h3]
            rfl
        rw [normTab_other ht]
        rw [show startsW (a :: L') (c :: normTab cs) =
          ((a == c) && startsW L' (normTab cs)) from rfl]
        rw [show startsW (a :: L') (c :: cs) = ((a == c) && startsW L' cs) from rfl]
        rw [ih L' hL']

theorem noWs_hasTab (L : Line) (h : hasWsL L = false) : hasTabL L = false := by
  induction L with
  | nil => rfl
  | cons a l ih =>
    rw [hasWsL, List.any_cons] at h
    rcases Bool.or_eq_false_iff.mp h with ⟨ha, hl⟩
    rw [hasTabL, List.any_cons, not_ws_tab ha]
    exact ih hl

theorem noWs_dbl (L : Line) (h : hasWsL L = false) : hasDblSpace L = false := by
  induction L with
  | nil => rfl
  | cons a l ih =>
    rw [hasWsL, List.any_cons] at h
    rcases Bool.or_eq_false_iff.mp h with ⟨ha, hl⟩
    cases l with
    | nil => rfl
    | cons b r =>
      rw [hasDblSpace, not_ws_sp ha, Bool.false_and, Bool.false_or]
      exact ih hl

theorem noWs_ends (L : Line) (h : hasWsL L = false) : endsSpace L = false := by
  induction L with
  | nil => rfl
  | cons a l ih =>
    rw [hasWsL, List.any_cons] at h
    rcases Bool.or_eq_false_iff.mp h with ⟨ha, hl⟩
    cases l with
    | nil => exact not_ws_sp ha
    | cons b r => exact ih hl

theorem litOk_of_noWs (L : Line) (h : hasWsL L = false) : litOk L = true := by
  rw [litOk, noWs_hasTab L h, noWs_dbl L h, noWs_ends L h]
  rfl

theorem hasSub_nil_pat (s : Line) : hasSub ([] : Line) s = true := by
  cases s <;> simp [hasSub, startsW, List.isEmpty]

theorem hasSub_normTab (W : Line) (hW : hasWsL W = false) (s : Line) :
    hasSub W (normTab s) = hasSub W s := by
  induction s with
  | nil => rfl
  | cons c cs ih =>
    cases W with
    | nil => rw [hasSub_nil_pat, hasSub_nil_pat]
    | cons w W' =>
      rw [hasWsL, List.any_cons] at hW
      rcases Bool.or_eq_false_iff.mp hW with ⟨hw, hW'⟩
      by_cases ht : c = '\t'
      · subst ht
        rw [normTab_tab]
        have hwsp : (w == ' ') = false := not_ws_sp hw
        have hwtb : (w == '\t') = false := not_ws_tab hw
        simp only [hasSub, startsW, hwsp, hwtb, Bool.false_and, Bool.false_or]
        exact ih
      · rw [normTab_other ht]
        have hsw : startsW (w :: W') (c :: normTab cs) = startsW (w :: W') (c :: cs) := by
          rw [show startsW (w :: W') (c :: normTab cs) =
            ((w == c) && startsW W' (normTab cs)) from rfl]
          rw [show startsW (w :: W') (c :: cs) = ((w == c) && startsW W' cs) from rfl]
          rw [startsW_normTab cs W' (litOk_of_noWs W' hW')]
        simp only [hasSub, hsw, ih]

end ClerkDocket

namespace ClerkDocket

theorem takeWhile_digit_normTab (s : Line) :
    (normTab s).takeWhile Char.isDigit = s.takeWhile Char.isDigit := by
  induction s with
  | nil => rfl
  | cons c cs ih =>
    by_cases ht : c = '\t'
    · subst ht
      rw [normTab_tab]
      simp +decide [List.takeWhile_cons]
    · rw [normTab_other ht]
      by_cases hd : Char.isDigit c
      · simp [List.takeWhile_cons, hd, ih]
      · simp [List.takeWhile_cons, hd]

theorem dropWhile_digit_normTab (s : Line) :
    (normTab s).dropWhile Char.isDigit = normTab (s.dropWhile Char.isDigit) := by
  induction s with
  | nil => rfl
  | cons c cs ih =>
    by_cases ht : c = '\t'
    · subst ht
      rw [normTab_tab]
      simp +decide [List.dropWhile_cons, normTab_tab]
    · rw [normTab_other ht]
      by_cases hd : Char.isDigit c
      · simp [List.dropWhile_cons, hd, ih]
      · simp [List.dropWhile_cons, hd, normTab_other ht]

theorem numHdrDot_normTab (r : Line) : numHdrDot (normTab r) = numHdrDot r := by
  rcases r with _ | ⟨x, r2⟩
  · rfl
  · by_cases hx : x = '\t'
    · subst hx
      rw [normTab_tab]
      rcases r2 with _ | ⟨y, r3⟩ <;> simp +decide [numHdrDot]
    · rw [normTab_other hx]
      rcases r2 with _ | ⟨y, r3⟩
      · rfl
      · by_cases hy : y = '\t'
        · subst hy
          rw [normTab_tab]
          simp [numHdrDot, show isWsChar ' ' = true from by decide,
            show isWsChar '\t' = true from by decide]
        · rw [normTab_other hy]
          rfl

theorem numHdr_normTab (s : Line) : numHdr (normTab s) = numHdr s := by
  rw [numHdr, numHdr, takeWhile_digit_normTab, dropWhile_digit_normTab, numHdrDot_normTab]

theorem numHdrRest_normTab (s : Line) : numHdrRest (normTab s) = normTab (numHdrRest s) := by
  rw [numHdrRest, numHdrRest, dropWhile_digit_normTab]
  rcases e : s.dropWhile Char.isDigit with _ | ⟨x, r2⟩
  · rfl
  · by_cases hx : x = '\t'
    · subst hx
      rw [normTab_tab]
      show (' ' :: ' ' :: ' ' :: normTab r2).dropWhile isWsChar = normTab (r2.dropWhile isWsChar)
      simp +decide [List.dropWhile_cons, dropWhileWs_normTab]
    · rw [normTab_other hx]
      show (normTab r2).dropWhile isWsChar = normTab (r2.dropWhile isWsChar)
      exact dropWhileWs_normTab r2

theorem numHdrDisc_normTab (s : Line) : numHdrDisc (normTab s) = numHdrDisc s := by
  rw [numHdrDisc, numHdrDisc, numHdr_normTab, numHdrRest_normTab,
    startsW_normTab (numHdrRest s) (lit "DISCUSSION") (by decide)]

theorem hdrA_normTab (s : Line) : hdrA (normTab s) = hdrA s := by
  rcases s with _ | ⟨a, _ | ⟨d, _ | ⟨w, r⟩⟩⟩
  · rfl
  · by_cases ha : a = '\t'
    · subst ha; rw [normTab_tab]; simp +decide [hdrA]
    · rw [normTab_other ha]; rfl
  · by_cases ha : a = '\t'
    · subst ha; rw [normTab_tab]; simp +decide [hdrA]
    · rw [normTab_other ha]
      by_cases hd : d = '\t'
      · subst hd; rw [normTab_tab]; simp +decide [hdrA]
      · rw [normTab_other hd]; rfl
  · by_cases ha : a = '\t'
    · subst ha; rw [normTab_tab]; simp +decide [hdrA]
    · rw [normTab_other ha]
      by_cases hd : d = '\t'
      · subst hd; rw [normTab_tab]; simp +decide [hdrA]
      · rw [normTab_other hd]
        by_cases hw : w = '\t'
        · subst hw
          rw [normTab_tab]
          simp [hdrA, show isWsChar ' ' = true from by decide,
            show isWsChar '\t' = true from by decide]
        · rw [normTab_other hw]; rfl

theorem filter_alpha_normTab (s : Line) :
    (normTab s).filter Char.isAlpha = s.filter Char.isAlpha := by
  induction s with
  | nil => rfl
  | cons c cs ih =>
    by_cases ht : c = '\t'
    · subst ht; rw [normTab_tab]; simp +decide [List.filter_cons, ih]
    · rw [normTab_other ht]; simp [List.filter_cons, ih]

theorem hasUnderscores_normTab (l : Line) : hasUnderscores (normTab l) = hasUnderscores l := by
  rw [hasUnderscores, hasUnderscores, hasSub_normTab (lit "___") (by decide)]

theorem isTitleBoundary_normTab (l : Line) :
    isTitleBoundary (normTab l) = isTitleBoundary l := by
  simp only [isTitleBoundary]
  rw [trim_normTab,
    startsW_normTab (trim l) (lit "A Worksession") (by decide),
    startsW_normTab (trim l) (lit "A Regular") (by decide),
    startsW_normTab (trim l) (lit "A Combined") (by decide)]

theorem discStep_normTab (st : SegState) (x : Line) :
    discStep st (normTab x) = discStep st x := by
  rw [discStep, discStep, numHdrDisc_normTab, numHdr_normTab,
    hasSub_normTab (lit "DISCUSSION") (by decide)]

theorem isAllCapsDoc_normTab (s : Line) :
    MinutesDoc.isAllCaps (normTab s) = MinutesDoc.isAllCaps s := by
  simp only [MinutesDoc.isAllCaps, filter_alpha_normTab]

theorem isFullWidthDoc_normTab (s : Line) :
    MinutesDoc.isFullWidthLine (normTab s) = MinutesDoc.isFullWidthLine s := by
  simp only [MinutesDoc.isFullWidthLine]
  rw [startsW_normTab s (lit "A Worksession") (by decide),
    startsW_normTab s (lit "A Regular") (by decide),
    startsW_normTab s (lit "A Combined") (by decide),
    startsW_normTab s (lit "Present were") (by decide),
    startsW_normTab s (lit "Also present") (by decide),
    startsW_normTab s (lit "The Township Clerk advised") (by decide),
    startsW_normTab s (lit "This meeting") (by decide),
    startsW_normTab s (lit "http") (by decide),
    startsW_normTab s (lit "On a motion") (by decide),
    startsW_normTab s (lit "Hearing no further") (by decide)]

theorem classifyLineDoc_normTab (st : SegState) (l : Line) :
    MinutesDoc.classifyLine st (normTab l) = MinutesDoc.classifyLine st l := by
  simp only [MinutesDoc.classifyLine]
  rw [trim_normTab, isEmpty_normTab, discStep_normTab, numHdr_normTab, isFullWidthDoc_normTab,
    isAllCapsDoc_normTab, hdrA_normTab,
    startsW_normTab (trim l) (lit "Councilmember") (by decide),
    startsW_normTab (trim l) (lit "Council President") (by decide),
    startsW_normTab (trim l) (lit "Council Vice President") (by decide),
    startsW_normTab (trim l) (lit "On a motion") (by decide),
    startsW_normTab (trim l) (lit "Hearing no further") (by decide)]

theorem classifyLine_eq (st : SegState) (l : Line) :
    MinutesPDF.classifyLine st l = MinutesDoc.classifyLine st l := rfl

theorem classifyBody_eq (st : SegState) (ls : List Line) :
    MinutesPDF.classifyBody st ls = MinutesDoc.classifyBody st ls := by
  induction ls generalizing st with
  | nil => rfl
  | cons l ls ih =>
    simp only [MinutesPDF.classifyBody, MinutesDoc.classifyBody, classifyLine_eq]
    rw [ih]

theorem classifyBodyDoc_map_normTab (ls : List Line) (st : SegState) :
    MinutesDoc.classifyBody st (ls.map normTab) = MinutesDoc.classifyBody st ls := by
  induction ls generalizing st with
  | nil => rfl
  | cons l ls ih =>
    simp only [List.map_cons, MinutesDoc.classifyBody, classifyLineDoc_normTab]
    rw [ih]

theorem firstIdxAux_map (p : Line → Bool) (f : Line → Line) (ls : List Line) :
    firstIdxAux p (ls.map f) = firstIdxAux (fun l => p (f l)) ls := by
  induction ls with
  | nil => rfl
  | cons l ls ih => simp [firstIdxAux, ih]

theorem firstIdxAux_congr (p q : Line → Bool) (h : ∀ l, p l = q l) (ls : List Line) :
    firstIdxAux p ls = firstIdxAux q ls := by
  induction ls with
  | nil => rfl
  | cons l ls ih => simp [firstIdxAux, h l, ih]

theorem titleEndOf_map_normTab (ls : List Line) :
    titleEndOf (ls.map normTab) = titleEndOf ls := by
  rw [titleEndOf, titleEndOf, firstIdxAux_map,
    firstIdxAux_congr _ isTitleBoundary (fun l => isTitleBoundary_normTab l)]

theorem sigStartOf_map_normTab (ls : List Line) :
    sigStartOf (ls.map normTab) = sigStartOf ls := by
  rw [sigStartOf, sigStartOf, (List.map_reverse normTab ls).symm, firstIdxAux_map,
    firstIdxAux_congr _ hasUnderscores (fun l => hasUnderscores_normTab l), List.length_map]

theorem filter_map_inv (p : Line → Bool) (f : Line → Line) (hp : ∀ l, p (f l) = p l)
    (ls : List Line) : (ls.map f).filter p = (ls.filter p).map f := by
  induction ls with
  | nil => rfl
  | cons l ls ih =>
    by_cases h : p l <;> simp [List.filter_cons, hp l, h, ih]

theorem linesOf_pdf (text : Line) :
    MinutesPDF.linesOf text = (MinutesDoc.linesOf text).map normTab := by
  rw [MinutesPDF.linesOf, MinutesDoc.linesOf, splitNl_normTab]

theorem titleLines_pdf (text : Line) :
    MinutesPDF.titleLines text = (MinutesDoc.titleLines text).map normTab := by
  rw [MinutesPDF.titleLines, MinutesDoc.titleLines, linesOf_pdf, titleEndOf_map_normTab,
    (List.map_take normTab (MinutesDoc.linesOf text) (titleEndOf (MinutesDoc.linesOf text))).symm,
    filter_map_inv _ _ (fun l => by rw [trim_normTab, isEmpty_normTab])]

theorem bodyLines_pdf (text : Line) :
    MinutesPDF.bodyLines text = (MinutesDoc.bodyLines text).map normTab := by
  simp only [MinutesPDF.bodyLines, MinutesDoc.bodyLines]
  rw [linesOf_pdf, titleEndOf_map_normTab, sigStartOf_map_normTab,
    (List.map_drop normTab (MinutesDoc.linesOf text) (titleEndOf (MinutesDoc.linesOf text))).symm,
    (List.map_take normTab _ _).symm]

theorem sigLines_pdf (text : Line) :
    MinutesPDF.sigLines text = (MinutesDoc.sigLines text).map normTab := by
  rw [MinutesPDF.sigLines, MinutesDoc.sigLines, linesOf_pdf, sigStartOf_map_normTab,
    (List.map_drop normTab (MinutesDoc.linesOf text) (sigStartOf (MinutesDoc.linesOf text))).symm]

end ClerkDocket

namespace ClerkDocket

/-- Claim C1: for every RawText, the sequence of (role, bold, indentLevel)
triples the Screen Renderer's line-by-line traversal assigns to the document
equals, element for element, the sequence the Pagination Renderer assigns to
the same RawText (page-break insertion does not enter the triples); the two
independent classification passes are extensionally equal functions of the
input text. -/
theorem C1_renderer_agreement (text : Line) :
    MinutesDoc.docTriples text = MinutesPDF.docTriples text := by
  have h1 : MinutesPDF.titleTriples text = MinutesDoc.titleTriples text := by
    rw [MinutesPDF.titleTriples, MinutesDoc.titleTriples, titleLines_pdf, List.map_map]
    rfl
  have h2 : MinutesPDF.bodyTriples text = MinutesDoc.bodyTriples text := by
    rw [MinutesPDF.bodyTriples, MinutesDoc.bodyTriples, bodyLines_pdf, classifyBody_eq,
      classifyBodyDoc_map_normTab]
  rw [MinutesDoc.docTriples, MinutesPDF.docTriples, h1, h2]

/-- Claim C2: on the concrete eleven-line input of §8, segmentation yields
exactly the expected title lines, the expected (role, bold, indent) sequence
(a non-bold indented line under section 1, a bold Councilmember line under
section 4, full-width preamble and motion lines), the discussion flag set by
the "4." header, insideSection cleared by the "On a motion" line, one review
marker with seconds 725 and display "[REVIEW: budget concern]", and the
expected signature names and titles in both renderers. -/
theorem C2_scenario :
    MinutesDoc.titleLines scenarioText = [lit "TOWNSHIP OF EDISON", lit "MINUTES"] ∧
    MinutesDoc.bodyTriples scenarioText =
      [⟨.fullWidth, false, 0⟩, ⟨.sectionHeader, true, 0⟩, ⟨.sectionBody, false, 1⟩,
        ⟨.sectionHeader, true, 0⟩, ⟨.sectionBody, true, 1⟩, ⟨.fullWidth, false, 0⟩] ∧
    MinutesDoc.statesOf ⟨false, false⟩ (MinutesDoc.bodyLines scenarioText) =
      [⟨false, false⟩, ⟨false, false⟩, ⟨true, false⟩, ⟨true, false⟩, ⟨true, true⟩,
        ⟨true, true⟩, ⟨false, true⟩] ∧
    srchMarkers (lit "Councilmember Smith raised [REVIEW: budget concern @12:05]") =
      [lit "[REVIEW: budget concern @12:05]"] ∧
    parseReviewTimestamp (lit "[REVIEW: budget concern @12:05]") = some (lit "12:05", 725) ∧
    stripTimestamp (lit "[REVIEW: budget concern @12:05]") = lit "[REVIEW: budget concern]" ∧
    MinutesDoc.sigNames scenarioText = [lit "Jane Doe", lit "John Roe"] ∧
    MinutesDoc.sigTitles scenarioText = [lit "Council President", lit "Township Clerk"] ∧
    (sigParse (MinutesPDF.sigLines scenarioText)).1 = [lit "Jane Doe", lit "John Roe"] ∧
    (sigParse (MinutesPDF.sigLines scenarioText)).2 =
      [lit "Council President", lit "Township Clerk"] := by
  decide

theorem classifyLineDoc_inDiscussion (st : SegState) (l : Line) :
    (MinutesDoc.classifyLine st l).1.inDiscussion = discStep st (trim l) := by
  simp only [MinutesDoc.classifyLine]
  split_ifs with h1 h2 h3 h4
  · rw [List.isEmpty_iff.mp h1]
    rfl
  · rfl
  · rfl
  · rfl
  · rfl

theorem numHdrDisc_imp {s : Line} (h : numHdrDisc s = true) : numHdr s = true := by
  rw [numHdrDisc] at h
  exact (Bool.and_eq_true _ _ ▸ h).1

/-- Claim C4 (amended): both renderers update the flag identically; for a
numbered header line the flag becomes true exactly when the trimmed line
matches `^\d+\.\s+DISCUSSION` (uppercase, immediately after the numeric
prefix) or it already was true and the header contains the exact substring
"DISCUSSION" somewhere; a numbered header without that exact substring
clears it; non-header lines leave it unchanged. -/
theorem C4_discussion_tracking (st : SegState) (l : Line) :
    MinutesPDF.classifyLine st l = MinutesDoc.classifyLine st l ∧
    (numHdr (trim l) = true →
      ((MinutesDoc.classifyLine st l).1.inDiscussion = true ↔
        (numHdrDisc (trim l) = true ∨
          (hasSub (lit "DISCUSSION") (trim l) = true ∧ st.inDiscussion = true)))) ∧
    (numHdr (trim l) = false →
      (MinutesDoc.classifyLine st l).1.inDiscussion = st.inDiscussion) := by
  refine ⟨classifyLine_eq st l, ?_, ?_⟩
  · intro hn
    rw [classifyLineDoc_inDiscussion, discStep]
    by_cases hd : numHdrDisc (trim l) = true
    · simp [hd]
    · rw [if_neg hd]
      by_cases hs : hasSub (lit "DISCUSSION") (trim l) = true
      · simp [hd, hs, hn]
      · simp only [Bool.not_eq_true] at hd hs
        simp [hd, hs, hn]
  · intro hn
    rw [classifyLineDoc_inDiscussion, discStep]
    have hd : numHdrDisc (trim l) = false := by
      by_cases h : numHdrDisc (trim l) = true
      · rw [numHdrDisc_imp h] at hn
        cases hn
      · exact Bool.not_eq_true _ ▸ h
    simp [hd, hn]

theorem C4_witness :
    (MinutesDoc.classifyLine ⟨false, false⟩ (lit "4. DISCUSSION ITEMS")).1.inDiscussion = true ↔
      (numHdrDisc (trim (lit "4. DISCUSSION ITEMS")) = true ∨
        (hasSub (lit "DISCUSSION") (trim (lit "4. DISCUSSION ITEMS")) = true ∧
          (⟨false, false⟩ : SegState).inDiscussion = true)) :=
  (C4_discussion_tracking ⟨false, false⟩ (lit "4. DISCUSSION ITEMS")).2.1 (by decide)

/-- Claim C4 counterexample: "1. ITEMS FOR DISCUSSION" is a numbered header
containing the word DISCUSSION, yet neither renderer sets the flag (the
set-true test requires DISCUSSION immediately after the numeric prefix); and
the mixed-case header "4. Discussion Items" clears an already-true flag
rather than setting it (the tests are case-sensitive). -/
theorem C4_counterexample :
    numHdr (trim (lit "1. ITEMS FOR DISCUSSION")) = true ∧
    hasSub (lit "DISCUSSION") (trim (lit "1. ITEMS FOR DISCUSSION")) = true ∧
    (MinutesDoc.classifyLine ⟨false, false⟩ (lit "1. ITEMS FOR DISCUSSION")).1.inDiscussion
      = false ∧
    (MinutesPDF.classifyLine ⟨false, false⟩ (lit "1. ITEMS FOR DISCUSSION")).1.inDiscussion
      = false ∧
    numHdr (trim (lit "4. Discussion Items")) = true ∧
    (MinutesDoc.classifyLine ⟨true, true⟩ (lit "4. Discussion Items")).1.inDiscussion = false := by
  decide

theorem classifyLineDoc_fullWidth_not_bold (st : SegState) (l : Line)
    (hrole : (MinutesDoc.classifyLine st l).2.role = .fullWidth) :
    (MinutesDoc.classifyLine st l).2.bold = false := by
  simp only [MinutesDoc.classifyLine] at hrole ⊢
  split_ifs at hrole ⊢ <;> simp_all

theorem classifyBodyDoc_fullWidth_not_bold (ls : List Line) :
    ∀ (st : SegState) (t : Triple), t ∈ MinutesDoc.classifyBody st ls →
      t.role = .fullWidth → t.bold = false := by
  induction ls with
  | nil => intro st t ht; simp [MinutesDoc.classifyBody] at ht
  | cons l ls ih =>
    intro st t ht hrole
    simp only [MinutesDoc.classifyBody, List.mem_cons] at ht
    rcases ht with h | h
    · subst h
      exact classifyLineDoc_fullWidth_not_bold st l hrole
    · exact ih _ t h hrole

/-- Claim C5 (amended): a line classified full-width is never rendered bold
by either renderer, regardless of its uppercase ratio; the all-caps rule
(uppercase letters exceeding 70% of alphabetic characters) makes a line bold
only when it is classified as indented section body. -/
theorem C5_full_width_bold :
    (∀ (text : Line) (t : Triple), t ∈ MinutesDoc.docTriples text →
      t.role = .fullWidth → t.bold = false) ∧
    (∀ (text : Line) (t : Triple), t ∈ MinutesPDF.docTriples text →
      t.role = .fullWidth → t.bold = false) ∧
    (∀ (st : SegState) (l : Line), st.insideSection = true → (trim l).isEmpty = false →
      numHdr (trim l) = false → MinutesDoc.isFullWidthLine (trim l) = false →
      MinutesDoc.isAllCaps (trim l) = true →
      (MinutesDoc.classifyLine st l).2 = ⟨.sectionBody, true, 1⟩) := by
  refine ⟨?_, ?_, ?_⟩
  · intro text t ht hrole
    rw [MinutesDoc.docTriples] at ht
    rcases List.mem_append.mp ht with h | h
    · rw [MinutesDoc.titleTriples] at h
      obtain ⟨l, -, rfl⟩ := List.mem_map.mp h
      simp at hrole
    · exact classifyBodyDoc_fullWidth_not_bold _ _ t h hrole
  · intro text t ht hrole
    rw [MinutesPDF.docTriples] at ht
    rcases List.mem_append.mp ht with h | h
    · rw [MinutesPDF.titleTriples] at h
      obtain ⟨l, -, rfl⟩ := List.mem_map.mp h
      simp at hrole
    · rw [MinutesPDF.bodyTriples, classifyBody_eq] at h
      exact classifyBodyDoc_fullWidth_not_bold _ _ t h hrole
  · intro st l h1 h2 h3 h4 h5
    simp only [MinutesDoc.classifyLine, h2, h3, h1, h4, h5]
    simp

/-- Claim C5 counterexample: the document consisting of the single line
"RESOLUTIONS" (100% uppercase letters) is classified full-width by both
renderers and is NOT bold, contradicting the claim that full-width lines
follow the all-caps bold rule. -/
theorem C5_counterexample :
    MinutesDoc.isAllCaps (lit "RESOLUTIONS") = true ∧
    MinutesDoc.docTriples (lit "RESOLUTIONS") = [⟨.fullWidth, false, 0⟩] ∧
    MinutesPDF.docTriples (lit "RESOLUTIONS") = [⟨.fullWidth, false, 0⟩] := by
  decide

theorem C5_witness :
    (⟨Role.fullWidth, false, 0⟩ : Triple).bold = false ∧
    (MinutesDoc.classifyLine ⟨true, false⟩ (lit "ORDINANCES")).2 = ⟨.sectionBody, true, 1⟩ :=
  ⟨C5_full_width_bold.1 (lit "RESOLUTIONS") ⟨Role.fullWidth, false, 0⟩ (by decide) rfl,
    C5_full_width_bold.2.2 ⟨true, false⟩ (lit "ORDINANCES") rfl (by decide) (by decide)
      (by decide) (by decide)⟩

/-- Claim C9: a line containing no ASCII alphabetic characters is never
classified bold by the all-caps rule in either renderer — the early return on
an empty letter set means the 70% ratio is never evaluated, so there is no
division by zero and the result is false. -/
theorem C9_no_letters (s : Line) (h : s.filter Char.isAlpha = []) :
    MinutesDoc.isAllCaps s = false ∧ MinutesPDF.isAllCaps s = false := by
  constructor
  · simp [MinutesDoc.isAllCaps, h]
  · simp [MinutesPDF.isAllCaps, h]

theorem C9_witness :
    MinutesDoc.isAllCaps (lit "12:05 -- #7") = false ∧
    MinutesPDF.isAllCaps (lit "12:05 -- #7") = false :=
  C9_no_letters (lit "12:05 -- #7") (by decide)

end ClerkDocket

namespace ClerkDocket

theorem firstIdxAux_eq_none (p : Line → Bool) (ls : List Line) :
    firstIdxAux p ls = none ↔ ∀ l ∈ ls, p l = false := by
  induction ls with
  | nil => simp [firstIdxAux]
  | cons l ls ih =>
    by_cases h : p l <;> simp [firstIdxAux, h, ih]

theorem sigStartOf_all_none {ls : List Line} (h : ∀ l ∈ ls, hasUnderscores l = false) :
    sigStartOf ls = ls.length := by
  rw [sigStartOf]
  rw [(firstIdxAux_eq_none hasUnderscores ls.reverse).mpr
    (fun l hl => h l (List.mem_reverse.mp hl))]

/-- Claim C3 (amended): with no underscore line at all, both renderers still
complete; the candidate signature region is empty and nothing is parsed.  The
Screen Renderer then omits the signature block entirely (and renders missing
fields as empty strings whenever some names exist but titles are missing),
while the Pagination Renderer substitutes its fixed default texts
("Sam Joshi", "Patricia Benedetto, RMC", "Council President",
"Municipal Clerk") for the missing fields. -/
theorem C3_sig_degradation (text : Line) :
    ((∀ l ∈ MinutesDoc.linesOf text, hasUnderscores l = false) →
      MinutesDoc.sigLines text = [] ∧
      MinutesPDF.sigLines text = [] ∧
      MinutesDoc.sigNames text = [] ∧
      MinutesDoc.sigTitles text = [] ∧
      MinutesDoc.sigRendered text = none ∧
      MinutesPDF.renderedSigs text =
        (lit "Sam Joshi", lit "Patricia Benedetto, RMC",
         lit "Council President", lit "Municipal Clerk")) ∧
    ((sigParse (MinutesDoc.sigLines text)).2 = [] →
      MinutesDoc.sigRendered text = none ∨
        ∃ p, MinutesDoc.sigRendered text = some p ∧ p.2.2.1 = [] ∧ p.2.2.2 = []) ∧
    ((sigParse (MinutesPDF.sigLines text)).2 = [] →
      (MinutesPDF.renderedSigs text).2.2 = (lit "Council President", lit "Municipal Clerk")) := by
  refine ⟨?_, ?_, ?_⟩
  · intro h
    have hdoc : MinutesDoc.sigLines text = [] := by
      rw [MinutesDoc.sigLines, sigStartOf_all_none h, List.drop_length]
    have hpdf : MinutesPDF.sigLines text = [] := by
      rw [sigLines_pdf, hdoc]
      rfl
    refine ⟨hdoc, hpdf, ?_, ?_, ?_, ?_⟩
    · rw [MinutesDoc.sigNames, hdoc]; rfl
    · rw [MinutesDoc.sigTitles, hdoc]; rfl
    · rw [MinutesDoc.sigRendered, MinutesDoc.sigNames, hdoc]
      rfl
    · rw [MinutesPDF.renderedSigs, hpdf]
      rfl
  · intro h
    rw [MinutesDoc.sigRendered]
    by_cases hn : (MinutesDoc.sigNames text).isEmpty
    · left
      rw [if_pos hn]
    · right
      rw [if_neg hn]
      refine ⟨_, rfl, ?_, ?_⟩ <;>
        simp [MinutesDoc.sigTitles, h]
  · intro h
    rw [MinutesPDF.renderedSigs]
    simp only [h]
    rfl

theorem C3_witness :
    MinutesDoc.sigRendered (lit "Hello") = none ∧
    MinutesPDF.renderedSigs (lit "Hello") =
      (lit "Sam Joshi", lit "Patricia Benedetto, RMC",
       lit "Council President", lit "Municipal Clerk") := by
  have h := (C3_sig_degradation (lit "Hello")).1 (by decide)
  exact ⟨h.2.2.2.2.1, h.2.2.2.2.2⟩

/-- Claim C3 counterexample: for the underscore-free document "Hello" the
signature fields are all missing, yet the Pagination Renderer draws the
default name "Sam Joshi" (and three more defaults) instead of empty strings,
contradicting "no substitute or default text is rendered in their place". -/
theorem C3_counterexample :
    sigParse (MinutesPDF.sigLines (lit "Hello")) = ([], []) ∧
    (MinutesPDF.renderedSigs (lit "Hello")).1 = lit "Sam Joshi" ∧
    lit "Sam Joshi" ≠ ([] : Line) := by
  decide

/-- Claim C8: when the last underscore line precedes the title boundary, the
body region is empty in both renderers and every non-blank line strictly
between the two boundaries belongs both to the rendered title lines and to
the candidate signature lines — the three segmentation regions overlap
instead of partitioning the document. -/
theorem C8_overlapping_regions (text : Line) (t s : Nat)
    (ht : firstIdxAux isTitleBoundary (MinutesDoc.linesOf text) = some t)
    (hs : sigStartOf (MinutesDoc.linesOf text) = s)
    (hlt : s < t) :
    MinutesDoc.bodyLines text = [] ∧
    MinutesPDF.bodyLines text = [] ∧
    ∀ i l, s < i → i < t → (MinutesDoc.linesOf text)[i]? = some l →
      (trim l).isEmpty = false →
      l ∈ MinutesDoc.titleLines text ∧ l ∈ MinutesDoc.sigLines text ∧
        normTab l ∈ MinutesPDF.titleLines text ∧ normTab l ∈ MinutesPDF.sigLines text := by
  have htE : titleEndOf (MinutesDoc.linesOf text) = t := by
    rw [titleEndOf, ht]
    rfl
  have hbody : MinutesDoc.bodyLines text = [] := by
    rw [MinutesDoc.bodyLines, htE, hs, Nat.sub_eq_zero_of_le (le_of_lt hlt), List.take_zero]
  refine ⟨hbody, ?_, ?_⟩
  · rw [bodyLines_pdf, hbody]
    rfl
  · intro i l hsi hit hget hblank
    have hmem_take : l ∈ (MinutesDoc.linesOf text).take t := by
      have hg : ((MinutesDoc.linesOf text).take t)[i]? = some l := by
        rw [List.getElem?_take, if_pos hit]
        exact hget
      exact List.getElem?_mem hg
    have hmem_title : l ∈ MinutesDoc.titleLines text := by
      rw [MinutesDoc.titleLines, htE]
      exact List.mem_filter.mpr ⟨hmem_take, by rw [hblank]; rfl⟩
    have hmem_sig : l ∈ MinutesDoc.sigLines text := by
      rw [MinutesDoc.sigLines, hs]
      have hg : ((MinutesDoc.linesOf text).drop s)[i - s]? = some l := by
        rw [List.getElem?_drop, show s + (i - s) = i from by omega]
        exact hget
      exact List.getElem?_mem hg
    refine ⟨hmem_title, hmem_sig, ?_, ?_⟩
    · rw [titleLines_pdf]
      exact List.mem_map.mpr ⟨l, hmem_title, rfl⟩
    · rw [sigLines_pdf]
      exact List.mem_map.mpr ⟨l, hmem_sig, rfl⟩

theorem C8_witness :
    MinutesDoc.bodyLines invertedText = [] ∧
    MinutesPDF.bodyLines invertedText = [] ∧
    lit "X" ∈ MinutesDoc.titleLines invertedText ∧
    lit "X" ∈ MinutesDoc.sigLines invertedText ∧
    normTab (lit "X") ∈ MinutesPDF.titleLines invertedText ∧
    normTab (lit "X") ∈ MinutesPDF.sigLines invertedText := by
  have h := C8_overlapping_regions invertedText 2 0 (by decide) (by decide) (by decide)
  have h2 := h.2.2 1 (lit "X") (by decide) (by decide) (by decide) (by decide)
  exact ⟨h.1, h.2.1, h2.1, h2.2.1, h2.2.2.1, h2.2.2.2⟩

end ClerkDocket

namespace ClerkDocket

theorem tryTimeAt_not_at {c : Char} (hc : ¬c = '@') (r : Line) : tryTimeAt (c :: r) = none := by
  simp [tryTimeAt, hc]

theorem findTime_append (pre s : Line) (h : '@' ∉ pre) : findTime (pre ++ s) = findTime s := by
  induction pre with
  | nil => rfl
  | cons c cs ih =>
    have hc : ¬c = '@' := fun e => h (by rw [← e]; exact List.mem_cons_self c cs)
    simp only [List.cons_append, findTime, tryTimeAt_not_at hc]
    exact ih fun m => h (List.mem_cons_of_mem c m)

theorem parseReviewTimestamp_append (pre s : Line) (h : '@' ∉ pre) :
    parseReviewTimestamp (pre ++ s) = parseReviewTimestamp s := by
  rw [parseReviewTimestamp, parseReviewTimestamp, findTime_append pre s h]

theorem grab12_one {a : Char} (ha : a.isDigit = true) (c : Char) (r : Line) :
    grab12 (a :: ':' :: c :: r) = some ([a], c :: r) := by
  simp [grab12, ha, show (':' : Char).isDigit = false from by decide]

theorem grab12_two {a b : Char} (ha : a.isDigit = true) (hb : b.isDigit = true) (r : Line) :
    grab12 (a :: b :: ':' :: r) = some ([a, b], r) := by
  simp [grab12, ha, hb]

theorem grab2_cons {c d : Char} (hc : c.isDigit = true) (hd : d.isDigit = true) (r : Line) :
    grab2 (c :: d :: r) = some (c, d, r) := by
  simp [grab2, hc, hd]

theorem optSS_some {e f : Char} (he : e.isDigit = true) (hf : f.isDigit = true) (r : Line) :
    optSS (':' :: e :: f :: r) = some (e, f) := by
  simp [optSS, he, hf]

theorem tryTimeAt_mmss1 {a c d : Char} {tail : Line} (ha : a.isDigit = true)
    (hc : c.isDigit = true) (hd : d.isDigit = true) (htail : optSS tail = none) :
    tryTimeAt ('@' :: a :: ':' :: c :: d :: tail) = some (([a], [c, d], none), tail) := by
  simp [tryTimeAt, grab12_one ha, grab2_cons hc hd, htail]

theorem tryTimeAt_mmss2 {a b c d : Char} {tail : Line} (ha : a.isDigit = true)
    (hb : b.isDigit = true) (hc : c.isDigit = true) (hd : d.isDigit = true)
    (htail : optSS tail = none) :
    tryTimeAt ('@' :: a :: b :: ':' :: c :: d :: tail) = some (([a, b], [c, d], none), tail) := by
  simp [tryTimeAt, grab12_two ha hb, grab2_cons hc hd, htail]

theorem tryTimeAt_hmmss1 {a c d e f : Char} {tail : Line} (ha : a.isDigit = true)
    (hc : c.isDigit = true) (hd : d.isDigit = true) (he : e.isDigit = true)
    (hf : f.isDigit = true) :
    tryTimeAt ('@' :: a :: ':' :: c :: d :: ':' :: e :: f :: tail) =
      some (([a], [c, d], some [e, f]), tail) := by
  simp [tryTimeAt, grab12_one ha, grab2_cons hc hd, optSS_some he hf]

theorem tryTimeAt_hmmss2 {a b c d e f : Char} {tail : Line} (ha : a.isDigit = true)
    (hb : b.isDigit = true) (hc : c.isDigit = true) (hd : d.isDigit = true)
    (he : e.isDigit = true) (hf : f.isDigit = true) :
    tryTimeAt ('@' :: a :: b :: ':' :: c :: d :: ':' :: e :: f :: tail) =
      some (([a, b], [c, d], some [e, f]), tail) := by
  simp [tryTimeAt, grab12_two ha hb, grab2_cons hc hd, optSS_some he hf]

theorem digitsVal_one (a : Char) : digitsVal [a] = digitVal a := by
  simp [digitsVal]

theorem digitsVal_two (a b : Char) : digitsVal [a, b] = 10 * digitVal a + digitVal b := by
  simp [digitsVal]

theorem parse_mmss1 {a c d : Char} {tail : Line} (ha : a.isDigit = true)
    (hc : c.isDigit = true) (hd : d.isDigit = true) (htail : optSS tail = none) :
    parseReviewTimestamp ('@' :: a :: ':' :: c :: d :: tail) =
      some (a :: ':' :: c :: [d], digitVal a * 60 + (10 * digitVal c + digitVal d)) := by
  have h1 : findTime ('@' :: a :: ':' :: c :: d :: tail) = some ([a], [c, d], none) := by
    simp only [findTime]
    rw [tryTimeAt_mmss1 ha hc hd htail]
  simp [parseReviewTimestamp, h1, digitsVal_one, digitsVal_two]

theorem parse_mmss2 {a b c d : Char} {tail : Line} (ha : a.isDigit = true)
    (hb : b.isDigit = true) (hc : c.isDigit = true) (hd : d.isDigit = true)
    (htail : optSS tail = none) :
    parseReviewTimestamp ('@' :: a :: b :: ':' :: c :: d :: tail) =
      some (a :: b :: ':' :: c :: [d],
        (10 * digitVal a + digitVal b) * 60 + (10 * digitVal c + digitVal d)) := by
  have h1 : findTime ('@' :: a :: b :: ':' :: c :: d :: tail) = some ([a, b], [c, d], none) := by
    simp only [findTime]
    rw [tryTimeAt_mmss2 ha hb hc hd htail]
  simp [parseReviewTimestamp, h1, digitsVal_one, digitsVal_two]

theorem parse_hmmss1 {a c d e f : Char} {tail : Line} (ha : a.isDigit = true)
    (hc : c.isDigit = true) (hd : d.isDigit = true) (he : e.isDigit = true)
    (hf : f.isDigit = true) :
    parseReviewTimestamp ('@' :: a :: ':' :: c :: d :: ':' :: e :: f :: tail) =
      some (natToDigits (digitVal a) ++ ':' :: c :: d :: ':' :: e :: [f],
        digitVal a * 3600 + (10 * digitVal c + digitVal d) * 60 +
          (10 * digitVal e + digitVal f)) := by
  have h1 : findTime ('@' :: a :: ':' :: c :: d :: ':' :: e :: f :: tail) =
      some ([a], [c, d], some [e, f]) := by
    simp only [findTime]
    rw [tryTimeAt_hmmss1 ha hc hd he hf]
  simp [parseReviewTimestamp, h1, digitsVal_one, digitsVal_two]

theorem parse_hmmss2 {a b c d e f : Char} {tail : Line} (ha : a.isDigit = true)
    (hb : b.isDigit = true) (hc : c.isDigit = true) (hd : d.isDigit = true)
    (he : e.isDigit = true) (hf : f.isDigit = true) :
    parseReviewTimestamp ('@' :: a :: b :: ':' :: c :: d :: ':' :: e :: f :: tail) =
      some (natToDigits (10 * digitVal a + digitVal b) ++ ':' :: c :: d :: ':' :: e :: [f],
        (10 * digitVal a + digitVal b) * 3600 + (10 * digitVal c + digitVal d) * 60 +
          (10 * digitVal e + digitVal f)) := by
  have h1 : findTime ('@' :: a :: b :: ':' :: c :: d :: ':' :: e :: f :: tail) =
      some ([a, b], [c, d], some [e, f]) := by
    simp only [findTime]
    rw [tryTimeAt_hmmss2 ha hb hc hd he hf]
  simp [parseReviewTimestamp, h1, digitsVal_one, digitsVal_two]

end ClerkDocket

namespace ClerkDocket

/-- Claim C6 (amended): stripping the timestamp from
"[REVIEW: check wording @1:23]" yields "[REVIEW: check wording]" and parsing
it yields 83 seconds; in general, a marker whose first timestamp match is
@M:SS parses to M*60+SS with the display exactly as written, and an
@H:MM:SS match parses to H*3600+MM*60+SS with the minutes and seconds as
written but the hour re-rendered from its parsed numeric value (so a leading
zero on the hour is dropped). -/
theorem C6_round_trip_display :
    stripTimestamp (lit "[REVIEW: check wording @1:23]") = lit "[REVIEW: check wording]" ∧
    parseReviewTimestamp (lit "[REVIEW: check wording @1:23]") = some (lit "1:23", 83) ∧
    (∀ (pre : Line) (a c d : Char) (tail : Line), '@' ∉ pre → a.isDigit = true →
      c.isDigit = true → d.isDigit = true → optSS tail = none →
      parseReviewTimestamp (pre ++ '@' :: a :: ':' :: c :: d :: tail) =
        some (a :: ':' :: c :: [d], digitVal a * 60 + (10 * digitVal c + digitVal d))) ∧
    (∀ (pre : Line) (a b c d : Char) (tail : Line), '@' ∉ pre → a.isDigit = true →
      b.isDigit = true → c.isDigit = true → d.isDigit = true → optSS tail = none →
      parseReviewTimestamp (pre ++ '@' :: a :: b :: ':' :: c :: d :: tail) =
        some (a :: b :: ':' :: c :: [d],
          (10 * digitVal a + digitVal b) * 60 + (10 * digitVal c + digitVal d))) ∧
    (∀ (pre : Line) (a c d e f : Char) (tail : Line), '@' ∉ pre → a.isDigit = true →
      c.isDigit = true → d.isDigit = true → e.isDigit = true → f.isDigit = true →
      parseReviewTimestamp (pre ++ '@' :: a :: ':' :: c :: d :: ':' :: e :: f :: tail) =
        some (natToDigits (digitVal a) ++ ':' :: c :: d :: ':' :: e :: [f],
          digitVal a * 3600 + (10 * digitVal c + digitVal d) * 60 +
            (10 * digitVal e + digitVal f))) ∧
    (∀ (pre : Line) (a b c d e f : Char) (tail : Line), '@' ∉ pre → a.isDigit = true →
      b.isDigit = true → c.isDigit = true → d.isDigit = true → e.isDigit = true →
      f.isDigit = true →
      parseReviewTimestamp (pre ++ '@' :: a :: b :: ':' :: c :: d :: ':' :: e :: f :: tail) =
        some (natToDigits (10 * digitVal a + digitVal b) ++ ':' :: c :: d :: ':' :: e :: [f],
          (10 * digitVal a + digitVal b) * 3600 + (10 * digitVal c + digitVal d) * 60 +
            (10 * digitVal e + digitVal f))) := by
  refine ⟨by decide, by decide, ?_, ?_, ?_, ?_⟩
  · intro pre a c d tail hpre ha hc hd htail
    rw [parseReviewTimestamp_append pre _ hpre, parse_mmss1 ha hc hd htail]
  · intro pre a b c d tail hpre ha hb hc hd htail
    rw [parseReviewTimestamp_append pre _ hpre, parse_mmss2 ha hb hc hd htail]
  · intro pre a c d e f tail hpre ha hc hd he hf
    rw [parseReviewTimestamp_append pre _ hpre, parse_hmmss1 ha hc hd he hf]
  · intro pre a b c d e f tail hpre ha hb hc hd he hf
    rw [parseReviewTimestamp_append pre _ hpre, parse_hmmss2 ha hb hc hd he hf]

theorem C6_witness :
    parseReviewTimestamp (lit "[REVIEW: x " ++ '@' :: '7' :: ':' :: '4' :: '5' :: lit "]") =
      some ('7' :: ':' :: '4' :: ['5'], digitVal '7' * 60 + (10 * digitVal '4' + digitVal '5')) :=
  C6_round_trip_display.2.2.1 (lit "[REVIEW: x ") '7' '4' '5' (lit "]")
    (by decide) (by decide) (by decide) (by decide) (by decide)

/-- Claim C6 counterexample: for the marker "[REVIEW: x @01:02:03]" the
matched time string is "01:02:03" but the display produced is "1:02:03" —
the parsed hour is re-rendered by `${h}` and the leading zero lost, so the
display is not "the matched time string as written". -/
theorem C6_counterexample :
    findTime (lit "[REVIEW: x @01:02:03]") = some (lit "01", lit "02", some (lit "03")) ∧
    parseReviewTimestamp (lit "[REVIEW: x @01:02:03]") = some (lit "1:02:03", 3723) ∧
    lit "1:02:03" ≠ lit "01:02:03" := by
  decide

/-- Claim C10: timestamp parsing does no range validation of minutes or
seconds: any two-digit SS (00–99) parses, e.g. "@1:99" gives 159 seconds,
and in the H:MM:SS form any two-digit MM and SS are accepted (e.g.
"@1:75:99" gives 8199) with seconds H*3600+MM*60+SS rather than the
timestamp being rejected. -/
theorem C10_no_range_validation :
    parseReviewTimestamp (lit "[REVIEW: x @1:99]") = some (lit "1:99", 159) ∧
    parseReviewTimestamp (lit "[REVIEW: x @1:75:99]") = some (lit "1:75:99", 8199) ∧
    (∀ (pre : Line) (a c d : Char) (tail : Line), '@' ∉ pre → a.isDigit = true →
      c.isDigit = true → d.isDigit = true → optSS tail = none →
      parseReviewTimestamp (pre ++ '@' :: a :: ':' :: c :: d :: tail) =
        some (a :: ':' :: c :: [d], digitVal a * 60 + (10 * digitVal c + digitVal d))) ∧
    (∀ (pre : Line) (a c d e f : Char) (tail : Line), '@' ∉ pre → a.isDigit = true →
      c.isDigit = true → d.isDigit = true → e.isDigit = true → f.isDigit = true →
      parseReviewTimestamp (pre ++ '@' :: a :: ':' :: c :: d :: ':' :: e :: f :: tail) =
        some (natToDigits (digitVal a) ++ ':' :: c :: d :: ':' :: e :: [f],
          digitVal a * 3600 + (10 * digitVal c + digitVal d) * 60 +
            (10 * digitVal e + digitVal f))) := by
  refine ⟨by decide, by decide, ?_, ?_⟩
  · intro pre a c d tail hpre ha hc hd htail
    rw [parseReviewTimestamp_append pre _ hpre, parse_mmss1 ha hc hd htail]
  · intro pre a c d e f tail hpre ha hc hd he hf
    rw [parseReviewTimestamp_append pre _ hpre, parse_hmmss1 ha hc hd he hf]

theorem C10_witness :
    parseReviewTimestamp (lit "[REVIEW: y " ++ '@' :: '2' :: ':' :: '9' :: '9' :: lit "]") =
      some ('2' :: ':' :: '9' :: ['9'], digitVal '2' * 60 + (10 * digitVal '9' + digitVal '9')) :=
  C10_no_range_validation.2.2.1 (lit "[REVIEW: y ") '2' '9' '9' (lit "]")
    (by decide) (by decide) (by decide) (by decide) (by decide)

end ClerkDocket

namespace ClerkDocket.MinutesPDF

theorem ensureSpace_out (needed : Nat) (st : LayoutSt) :
    (ensureSpace needed st).out = st.out := by
  rw [ensureSpace]
  split <;> rfl

theorem ensureSpace_le {needed : Nat} (st : LayoutSt) (h : needed ≤ 634) :
    (ensureSpace needed st).y + needed ≤ bottomLimit := by
  rw [ensureSpace]
  split
  · show marginTop + needed ≤ bottomLimit
    rw [marginTop, bottomLimit]
    omega
  · rw [bottomLimit] at *
    omega

theorem writeTx_ok {k : BKind} (hk : ¬k = BKind.hdrNum) (h : Nat) (st : LayoutSt)
    (hP : ∀ b ∈ st.out, PlacedOk b) :
    ∀ b ∈ (writeTx k h st).out, PlacedOk b := by
  intro b hb
  rw [writeTx] at hb
  simp only [List.mem_append, List.mem_singleton] at hb
  rcases hb with h1 | h2
  · rw [ensureSpace_out] at h1
    exact hP b h1
  · subst h2
    constructor
    · intro _ hle
      exact ensureSpace_le st hle
    · intro hknum
      exact absurd hknum hk

theorem blankLn_out (st : LayoutSt) : (blankLn st).out = st.out := rfl

theorem titleRender_ok (H : HFun) (ls : List Line) :
    ∀ st : LayoutSt, (∀ b ∈ st.out, PlacedOk b) →
      ∀ b ∈ (titleRender H st ls).out, PlacedOk b := by
  induction ls with
  | nil => intro st hP; exact hP
  | cons l ls ih =>
    intro st hP
    exact ih _ (writeTx_ok (by simp) _ st hP)

theorem hdrStep_ok (H : HFun) (rest : Line) (st : LayoutSt)
    (hP : ∀ b ∈ st.out, PlacedOk b) :
    ∀ b ∈ (hdrStep H rest st).out, PlacedOk b := by
  intro b hb
  have hnum : PlacedOk (⟨(ensureSpace (2 * lineHeight) st).page,
      (ensureSpace (2 * lineHeight) st).y, lineHeight, .hdrNum⟩ : Placed) := by
    refine And.intro (fun hk => nomatch hk) (fun _ => ?_)
    have hle : (ensureSpace (2 * lineHeight) st).y + 2 * lineHeight ≤ bottomLimit :=
      ensureSpace_le st (by decide)
    rw [lineHeight] at hle ⊢
    dsimp only
    omega
  rw [hdrStep] at hb
  by_cases h4 : rest.isEmpty
  · rw [if_pos h4] at hb
    simp only [List.mem_append, List.mem_singleton] at hb
    rcases hb with hmem | hblk
    · rw [ensureSpace_out] at hmem
      exact hP b hmem
    · subst hblk
      exact hnum
  · rw [if_neg h4] at hb
    simp only [List.mem_append, List.mem_singleton] at hb
    rcases hb with (hmem | hblk) | hblk
    · rw [ensureSpace_out] at hmem
      exact hP b hmem
    · subst hblk
      exact hnum
    · subst hblk
      exact And.intro (fun hk => nomatch hk) (fun hk => nomatch hk)

theorem bodyRender_ok (H : HFun) (ls : List Line) :
    ∀ (sst : SegState) (st : LayoutSt), (∀ b ∈ st.out, PlacedOk b) →
      ∀ b ∈ (bodyRender H sst st ls).out, PlacedOk b := by
  induction ls with
  | nil => intro sst st hP; exact hP
  | cons l ls ih =>
    intro sst st hP
    rw [bodyRender]
    split_ifs with h1 h2 h3
    · exact ih _ _ hP
    · exact ih _ _ (hdrStep_ok H _ st hP)
    · exact ih _ _ (writeTx_ok (by simp) _ st hP)
    all_goals exact ih _ _ (writeTx_ok (by simp) _ st hP)

end ClerkDocket.MinutesPDF

namespace ClerkDocket.MinutesPDF

theorem sigRender_ok (H : HFun) (sigs : Line × Line × Line × Line) (st : LayoutSt)
    (hP : ∀ b ∈ st.out, PlacedOk b) :
    ∀ b ∈ (sigRender H sigs st).out, PlacedOk b := by
  intro b hb
  simp only [sigRender, blankLn, ensureSpace_out, List.mem_append, List.mem_cons,
    List.mem_singleton, List.not_mem_nil, or_false] at hb
  rcases hb with (hmem | hblk | hblk) | hblk | hblk
  · exact hP b hmem
  all_goals subst hblk
  all_goals exact And.intro (fun hk => nomatch hk) (fun hk => nomatch hk)

end ClerkDocket.MinutesPDF

namespace ClerkDocket

/-- Claim C7 (amended): pagination never breaks between the blocks it
measures: every block placed through `writeText` (title lines, section-body
lines, full-width lines) whose wrapped height fits a fresh page's content
area (at most 634 points) ends at or above the bottom content limit, and
every one-line section-number block does too — `ensureSpace` opens a new
page before such a block would cross the limit.  No such guarantee holds for
section-header titles (only two line heights are reserved, without measuring
the wrapped title) or for the signature rows (drawn with no `ensureSpace`),
nor for a measured block taller than a whole page, which the underlying PDF
engine flows across the break mid-line. -/
theorem C7_measured_blocks_fit (H : MinutesPDF.HFun) (text : Line) :
    ∀ b ∈ (MinutesPDF.renderDoc H text).out, MinutesPDF.PlacedOk b := by
  intro b hb
  simp only [MinutesPDF.renderDoc] at hb
  refine MinutesPDF.sigRender_ok H _ _ ?_ b hb
  refine MinutesPDF.bodyRender_ok H _ _ _ ?_
  rw [MinutesPDF.blankLn_out, MinutesPDF.blankLn_out]
  refine MinutesPDF.titleRender_ok H _ _ ?_
  rw [MinutesPDF.blankLn_out, MinutesPDF.blankLn_out]
  intro b' hb'
  exact absurd hb' (List.not_mem_nil b')

theorem C7_witness :
    (⟨1, 94, 11, MinutesPDF.BKind.measured⟩ : MinutesPDF.Placed) ∈
      (MinutesPDF.renderDoc (fun _ _ => 11) scenarioText).out ∧
    94 + 11 ≤ MinutesPDF.bottomLimit :=
  ⟨by decide,
    (C7_measured_blocks_fit (fun _ _ => 11) scenarioText
      ⟨1, 94, 11, MinutesPDF.BKind.measured⟩ (by decide)).1 rfl (by decide)⟩

/-- Claim C7 counterexample: with 51 blank lines the cursor reaches y = 677;
the following section header passes `ensureSpace(2 * LINE_HEIGHT)` (677 + 22
≤ 706) but its title, wrapping to three 11-point lines, is placed at 677
with height 33 and ends at 710 — past the bottom limit 706 — so a single
logical line's rendered content crosses the page boundary and is flowed onto
the next page mid-line by the PDF engine. -/
theorem C7_counterexample :
    (⟨1, 677, 33, MinutesPDF.BKind.hdrTitle⟩ : MinutesPDF.Placed) ∈
      (MinutesPDF.renderDoc threeLineH overflowText).out ∧
    MinutesPDF.bottomLimit < 677 + 33 := by
  constructor
  · decide
  · decide

end ClerkDocket
